import Mathlib

/-!
Verification of the Chaum-Pedersen ZKP authentication service
(`zkp_server/src/lib.rs`, `zkp_client/src/zkp_auth_client.rs`,
`zkp_client/src/main.rs`) against its natural-language specification.

The Rust code is shallowly embedded: `num_bigint::BigInt` becomes `ℤ`,
fallible operations (library `assert!`s / `unwrap()` panics) become
`Option` / an explicit `panicked` outcome, the two process-wide maps of
the gRPC server become association lists inside an explicit state record,
and the random draws (`rand` / `RandomBits`) become explicit arguments of
the functions that perform them.
-/

namespace Zkp

set_option maxRecDepth 100000

/-- The group modulus `p = 2^255 - 19`, as set by `zkp_verifier::init`
(and identically by `zkp_prover::init` on the client). -/
def P : ℤ := 2 ^ 255 - 19

/-- The generator `g = 5`, as set by `zkp_verifier::init` / `zkp_prover::init`. -/
def G : ℤ := 5

/-- The generator `h = 3`, as set by `zkp_verifier::init` / `zkp_prover::init`. -/
def H : ℤ := 3

/-- `BigInt::modpow(&self, exponent, modulus)` from `num_bigint`: modular
exponentiation, rounding like `mod_floor`.  The library `assert!`s that the
exponent is non-negative and the modulus non-zero, so those cases panic,
modelled as `none`. -/
def modpow (b e m : ℤ) : Option ℤ :=
  if e < 0 ∨ m = 0 then none else some ((b ^ e.toNat).fmod m)

/-- `Integer::mod_floor` from `num_integer` on `BigInt`: floor-rounding
remainder, i.e. `Int.fmod`. -/
def mod_floor (a m : ℤ) : ℤ := a.fmod m

/-- The `while v[2] != 0` loop of `zkp_verifier::get_extended_euclidean`.
State: the two triples `u = [u0, u1, u2]` and `v = [v0, v1, v2]`; each
round computes `q = u[2] / v[2]` (BigInt `/` truncates toward zero, hence
`Int.tdiv`) and shifts `(u, v) ← (v, u - q·v)`.  The loop is embedded with
explicit fuel; since `|v2|` strictly decreases each round, `|v2| + 1` units
of fuel always suffice (`egcdAux_spec` below only ever runs it with enough
fuel). -/
def egcdAux : ℕ → ℤ → ℤ → ℤ → ℤ → ℤ → ℤ → ℤ × ℤ × ℤ
  | 0, u0, u1, u2, _, _, _ => (u0, u1, u2)
  | fuel + 1, u0, u1, u2, v0, v1, v2 =>
    if v2 = 0 then (u0, u1, u2)
    else
      egcdAux fuel v0 v1 v2
        (u0 - u2.tdiv v2 * v0) (u1 - u2.tdiv v2 * v1) (u2 - u2.tdiv v2 * v2)

/-- `zkp_verifier::get_extended_euclidean(b, phi)`: runs the loop from
`u = [1, 0, phi]`, `v = [0, 1, b]` and returns `u[1]`, shifted by `phi`
if negative. -/
def get_extended_euclidean (b phi : ℤ) : ℤ :=
  let r := egcdAux (b.natAbs + 1) 1 0 phi 0 1 b
  if r.2.1 < 0 then r.2.1 + phi else r.2.1

/-- `zkp_verifier::verify(s, c, y1, y2, r1, r2)`: the verification equation.
`(val1, val2)` come from the `s < 0` / `s ≥ 0` branches (negative `s` uses
`modpow(-s)` followed by `get_extended_euclidean`), `(val3, val4)` from the
`c < 0` / `c ≥ 0` branches (note the code passes `c` itself, not `-c`, to
`modpow` in the negative branch), and the result compares
`(r1, r2)` with `((val1·val3) mod_floor p, (val2·val4) mod_floor p)`. -/
def verify (s c y1 y2 r1 r2 : ℤ) : Option Bool :=
  ((if s < 0 then
      (modpow G (-s) P).bind fun v1 =>
      (modpow H (-s) P).map fun v2 =>
        (get_extended_euclidean v1 P, get_extended_euclidean v2 P)
    else
      (modpow G s P).bind fun v1 =>
      (modpow H s P).map fun v2 => (v1, v2))).bind fun val12 =>
  ((if c < 0 then
      (modpow y1 c P).bind fun w1 =>
      (modpow y2 c P).map fun w2 =>
        (get_extended_euclidean w1 P, get_extended_euclidean w2 P)
    else
      (modpow y1 c P).bind fun w1 =>
      (modpow y2 c P).map fun w2 => (w1, w2))).map fun val34 =>
    decide (r1 = mod_floor (val12.1 * val34.1) P) &&
    decide (r2 = mod_floor (val12.2 * val34.2) P)

/-- `zkp_prover::gen_public(x) = (g^x mod p, h^x mod p)` (client side). -/
def gen_public (x : ℤ) : Option (ℤ × ℤ) :=
  (modpow G x P).bind fun y1 => (modpow H x P).map fun y2 => (y1, y2)

/-- `zkp_prover::gen_random(k) = (g^k mod p, h^k mod p)` (client side). -/
def gen_random (k : ℤ) : Option (ℤ × ℤ) :=
  (modpow G k P).bind fun r1 => (modpow H k P).map fun r2 => (r1, r2)

/-- `zkp_prover::challenge_answer(c, k, x) = k - c * x` (client side). -/
def challenge_answer (c k x : ℤ) : ℤ := k - c * x

/-- `gen_random_with_n_bits::<N>()` (identical on server and client):
samples a `BigInt` via `RandomBits::new(N)` — a sign bit plus a magnitude
of `N` random bits, i.e. any `raw` with `raw.natAbs < 2^N` — and takes its
absolute value.  The sampled `raw` is made an explicit argument. -/
def gen_random_with_n_bits (N : ℕ) (raw : ℤ) : ℤ := |raw|

/-- `zkp_verifier::request_challenge()`: a 128-bit random challenge. -/
def request_challenge (raw : ℤ) : ℤ := gen_random_with_n_bits 128 raw

/-- Modelled from the spec: `modpow_signed(base, e, p)` — the spec's uniform
rule for signed exponents (§4.1): for `e < 0` compute
`modinv(modpow(base, -e, p), p)`, otherwise `modpow(base, e, p)`. -/
def modpow_signed (b e m : ℤ) : ℤ :=
  if e < 0 then get_extended_euclidean ((b ^ (-e).toNat).fmod m) m
  else (b ^ e.toNat).fmod m

/-- Modelled from the spec: the verification equation of §4.3 with the
negative-exponent rule of §4.1 applied uniformly to both `s` and `c`
(i.e. what `verify` would be if the `c < 0` branch used exponent `-c`). -/
def verify_uniform (s c y1 y2 r1 r2 : ℤ) : Bool :=
  let val1 := modpow_signed G s P
  let val2 := modpow_signed H s P
  let val3 := modpow_signed y1 c P
  let val4 := modpow_signed y2 c P
  decide (r1 = mod_floor (val1 * val3) P) &&
  decide (r2 = mod_floor (val2 * val4) P)

/-- `zkp_verifier::verify` with the (dynamically dead) `c < 0` branch
removed: `val3, val4` are always computed by the non-negative path. -/
def verify_without_neg_c_branch (s c y1 y2 r1 r2 : ℤ) : Option Bool :=
  ((if s < 0 then
      (modpow G (-s) P).bind fun v1 =>
      (modpow H (-s) P).map fun v2 =>
        (get_extended_euclidean v1 P, get_extended_euclidean v2 P)
    else
      (modpow G s P).bind fun v1 =>
      (modpow H s P).map fun v2 => (v1, v2))).bind fun val12 =>
  ((modpow y1 c P).bind fun w1 =>
   (modpow y2 c P).map fun w2 => (w1, w2)).map fun val34 =>
    decide (r1 = mod_floor (val12.1 * val34.1) P) &&
    decide (r2 = mod_floor (val12.2 * val34.2) P)

/-- The digit loop of `BigUint::from_str_radix` at radix 10: a decimal
digit is accumulated, an embedded `'_'` is skipped (`b'_' => continue`),
and every other byte is invalid (ASCII letters normalise to values
`≥ 10 = radix` and are rejected too). -/
def parse_digits : List Char → ℕ → Option ℕ
  | [], acc => some acc
  | ch :: rest, acc =>
    if '0' ≤ ch ∧ ch ≤ '9' then parse_digits rest (acc * 10 + (ch.toNat - 48))
    else if ch = '_' then parse_digits rest acc
    else none

/-- `BigUint::from_str_radix(s, 10)` from `num_bigint`: strips one leading
`'+'` unless another `'+'` follows, rejects the empty string and a leading
`'_'` ("must lead with a real digit"), then runs the digit loop, skipping
embedded underscores. -/
def from_str_radix_biguint (l : List Char) : Option ℕ :=
  let l2 := match l with
    | '+' :: rest => if rest.head? = some '+' then l else rest
    | _ => l
  match l2 with
  | [] => none
  | '_' :: _ => none
  | l3 => parse_digits l3 0

/-- `BigInt::parse_bytes(s.as_bytes(), 10)`, i.e.
`BigInt::from_str_radix(s, 10)`: one leading `'-'` fixes a negative sign,
and the remainder is parsed by `BigUint::from_str_radix`. -/
def parse_bytes (s : String) : Option ℤ :=
  match s.data with
  | '-' :: rest => (from_str_radix_biguint rest).map fun n => -(n : ℤ)
  | l => (from_str_radix_biguint l).map fun n => (n : ℤ)

/-- `VerifierUserState` (server): the registered public key and the
per-attempt fields, `None` until a challenge is created. -/
structure VerifierUserState where
  y1 : ℤ
  y2 : ℤ
  r1 : Option ℤ
  r2 : Option ℤ
  c : Option ℤ
deriving DecidableEq

/-- Association-list lookup, modelling `HashMap::get` / `contains_key`. -/
def lookupA {α β : Type} [DecidableEq α] : List (α × β) → α → Option β
  | [], _ => none
  | (k', v') :: rest, k => if k' = k then some v' else lookupA rest k

/-- Association-list insert, modelling `HashMap::insert` (overwrites any
existing entry for the key). -/
def insertA {α β : Type} [DecidableEq α] : List (α × β) → α → β → List (α × β)
  | [], k, v => [(k, v)]
  | (k', v') :: rest, k, v =>
    if k' = k then (k, v) :: rest else (k', v') :: insertA rest k v

/-- The server's process-wide state: the `REGISTERED_USERS` map, the
`AUTH_ID_USER_MAP` map, and whether the `P`/`G`/`H` `OnceCell`s have been
set (they are set by `zkp_verifier::init`, which `unwrap`s the result of
`OnceCell::set` and therefore panics if called a second time). -/
structure ServerState where
  registered_users : List (String × VerifierUserState)
  auth_id_user_map : List (ℤ × String)
  pgh_set : Bool
deriving DecidableEq

/-- The ways a handler invocation can end, as seen by the RPC caller. -/
inductive Outcome where
  | okRegister : Outcome
  | okChallenge : ℤ → ℤ → Outcome
  | okSession : ℤ → Outcome
  | invalidArgument : Outcome
  | notFound : Outcome
  | unauthenticated : Outcome
  | panicked : Outcome
deriving DecidableEq

/-- `Verifier::register`: early-succeeds if the user is already present;
otherwise parses `y1`, `y2` (failure → `InvalidArgument`), inserts the
fresh `VerifierUserState`, and then calls `zkp_verifier::init()` — which
panics (`OnceCell::set(..).unwrap()`) if the group parameters were already
set by an earlier registration.  Note the insertion has already happened
when that panic fires. -/
def register (st : ServerState) (user y1s y2s : String) : Outcome × ServerState :=
  if (lookupA st.registered_users user).isSome then (Outcome.okRegister, st)
  else
    match parse_bytes y1s with
    | none => (Outcome.invalidArgument, st)
    | some y1 =>
      match parse_bytes y2s with
      | none => (Outcome.invalidArgument, st)
      | some y2 =>
        let st' := { st with
          registered_users :=
            insertA st.registered_users user ⟨y1, y2, none, none, none⟩ }
        if st.pgh_set then (Outcome.panicked, st')
        else (Outcome.okRegister, { st' with pgh_set := true })

/-- `Verifier::create_authentication_challenge`: parses `r1`, `r2` with
`unwrap()` (failure → panic), then requires the user to be registered
(`NotFound` otherwise), draws `auth_id` and the challenge `c` (the raw
128-bit samples are explicit arguments), stores `(r1, r2, c)` into the
user's state via `entry(..).and_modify`, and records `auth_id → user`. -/
def create_authentication_challenge (st : ServerState) (user r1s r2s : String)
    (authIdRaw cRaw : ℤ) : Outcome × ServerState :=
  match parse_bytes r1s with
  | none => (Outcome.panicked, st)
  | some r1 =>
    match parse_bytes r2s with
    | none => (Outcome.panicked, st)
    | some r2 =>
      if (lookupA st.registered_users user).isSome = false then
        (Outcome.notFound, st)
      else
        let auth_id := gen_random_with_n_bits 128 authIdRaw
        let challenge := request_challenge cRaw
        let st' := { st with
          registered_users :=
            match lookupA st.registered_users user with
            | none => st.registered_users
            | some us =>
              insertA st.registered_users user
                { us with r1 := some r1, r2 := some r2, c := some challenge } }
        let st'' := { st' with
          auth_id_user_map := insertA st'.auth_id_user_map auth_id user }
        (Outcome.okChallenge auth_id challenge, st'')

/-- `Verifier::verify_authentication`: parses `auth_id`, `s` with
`unwrap()` (panic on failure), looks up the user for `auth_id` and the
user's state with `unwrap()` (panic if absent), `unwrap()`s the attempt
fields `r1`, `r2`, `c` (panic if no challenge preceded), runs
`zkp_verifier::verify`, and answers a fresh 128-bit `session_id` on
success or `Unauthenticated` on mismatch.  It never writes to either
map. -/
def verify_authentication (st : ServerState) (authIds ss : String)
    (sessRaw : ℤ) : Outcome × ServerState :=
  match parse_bytes authIds with
  | none => (Outcome.panicked, st)
  | some auth_id =>
    match parse_bytes ss with
    | none => (Outcome.panicked, st)
    | some s =>
      match lookupA st.auth_id_user_map auth_id with
      | none => (Outcome.panicked, st)
      | some user =>
        match lookupA st.registered_users user with
        | none => (Outcome.panicked, st)
        | some us =>
          match us.r1, us.r2, us.c with
          | some r1, some r2, some c =>
            match verify s c us.y1 us.y2 r1 r2 with
            | none => (Outcome.panicked, st)
            | some true =>
              (Outcome.okSession (gen_random_with_n_bits 128 sessRaw), st)
            | some false => (Outcome.unauthenticated, st)
          | _, _, _ => (Outcome.panicked, st)

/-- The accept/reject decision a caller can observe from an
`Outcome` (`none` when the handler did not reach a decision). -/
def decision : Outcome → Option Bool
  | Outcome.okSession _ => some true
  | Outcome.unauthenticated => some false
  | _ => none

/-- `ZkpClientAuthenticationStatus` (client, `zkp_client/src/lib.rs`). -/
inductive ZkpClientAuthenticationStatus where
  | authenticated : String → ZkpClientAuthenticationStatus
  | notAuthenticated : String → ZkpClientAuthenticationStatus
  | unregisteredUser : ZkpClientAuthenticationStatus

/-- The JSON body of the client's login reply
(`models::AuthenticationResponse`). -/
structure AuthenticationResponse where
  user : String
  status : String
  session_id : Option String
deriving DecidableEq

/-- `handlers::handle_login` (client, `zkp_client/src/main.rs`): maps the
authentication status returned by `zkp_auth_client::login` to a JSON reply
plus an HTTP status code (`warp::http::StatusCode`, as a numeral). -/
def handle_login (user : String) :
    ZkpClientAuthenticationStatus → AuthenticationResponse × ℕ
  | ZkpClientAuthenticationStatus.unregisteredUser =>
    (⟨user, "unregistered user", none⟩, 404)
  | ZkpClientAuthenticationStatus.authenticated session_id =>
    (⟨user, "authenticated", some session_id⟩, 401)
  | ZkpClientAuthenticationStatus.notAuthenticated status =>
    (⟨user, "not authenticated - " ++ status, none⟩, 200)

/-- Loop invariant of `get_extended_euclidean` for the call
`get_extended_euclidean a p`. -/
structure EgcdInv (p a u0 u1 u2 v0 v1 v2 : ℤ) : Prop where
  hu : u2 = u0 * p + u1 * a
  hv : v2 = v0 * p + v1 * a
  hv2 : 0 ≤ v2
  huv : v2 < u2
  hsign : u1 * v1 ≤ 0
  habs : |u1| ≤ |v1|
  hlen : u2 * |v1| + v2 * |u1| = p
  hdvd : ∀ d : ℤ, (d ∣ u2 ∧ d ∣ v2) ↔ (d ∣ p ∧ d ∣ a)

theorem abs_sub_of_mul_nonpos (x y : ℤ) (h : x * y ≤ 0) : |x - y| = |x| + |y| := by
  rcases mul_nonpos_iff.mp h with ⟨hx, hy⟩ | ⟨hx, hy⟩
  · rw [abs_of_nonneg hx, abs_of_nonpos hy, abs_of_nonneg (by omega : 0 ≤ x - y)]
    ring
  · rw [abs_of_nonpos hx, abs_of_nonneg hy, abs_of_nonpos (by omega : x - y ≤ 0)]
    ring

theorem egcd_step (p a u0 u1 u2 v0 v1 v2 : ℤ)
    (hinv : EgcdInv p a u0 u1 u2 v0 v1 v2) (hz : v2 ≠ 0) :
    EgcdInv p a v0 v1 v2
      (u0 - u2.tdiv v2 * v0) (u1 - u2.tdiv v2 * v1) (u2 - u2.tdiv v2 * v2) := by
  obtain ⟨hu, hv, hv2, huv, hsign, habs, hlen, hdvd⟩ := hinv
  have hv2pos : 0 < v2 := lt_of_le_of_ne hv2 (Ne.symm hz)
  have hu2pos : 0 < u2 := lt_trans hv2pos huv
  have htdiv : u2.tdiv v2 = u2 / v2 := Int.tdiv_eq_ediv (le_of_lt hu2pos) hv2
  have hq1 : 1 ≤ u2.tdiv v2 := by
    rw [htdiv, Int.le_ediv_iff_mul_le hv2pos]
    omega
  have hq0 : 0 ≤ u2.tdiv v2 := le_trans zero_le_one hq1
  have hrem : u2 - u2.tdiv v2 * v2 = u2 % v2 := by
    rw [htdiv, Int.emod_def]; ring
  have hr0 : 0 ≤ u2 - u2.tdiv v2 * v2 := hrem ▸ Int.emod_nonneg u2 (ne_of_gt hv2pos)
  have hrlt : u2 - u2.tdiv v2 * v2 < v2 := hrem ▸ Int.emod_lt_of_pos u2 hv2pos
  have habs_new : |u1 - u2.tdiv v2 * v1| = |u1| + u2.tdiv v2 * |v1| := by
    have h : u1 * (u2.tdiv v2 * v1) ≤ 0 := by
      have := mul_nonneg hq0 (neg_nonneg.mpr hsign)
      nlinarith
    rw [abs_sub_of_mul_nonpos u1 (u2.tdiv v2 * v1) h, abs_mul, abs_of_nonneg hq0]
  refine ⟨?_, ?_, hr0, hrlt, ?_, ?_, ?_, ?_⟩
  · exact hv
  · rw [hu, hv]; ring
  · nlinarith [mul_self_nonneg v1]
  · rw [habs_new]
    nlinarith [abs_nonneg u1, abs_nonneg v1]
  · rw [habs_new]
    nlinarith
  · intro d
    rw [← hdvd d]
    constructor
    · rintro ⟨hdv, hdr⟩
      refine ⟨?_, hdv⟩
      have h : u2 = (u2 - u2.tdiv v2 * v2) + u2.tdiv v2 * v2 := by ring
      rw [h]
      exact dvd_add hdr (Dvd.dvd.mul_left hdv (u2.tdiv v2))
    · rintro ⟨hdu, hdv⟩
      exact ⟨hdv, dvd_sub hdu (Dvd.dvd.mul_left hdv (u2.tdiv v2))⟩

theorem egcdAux_spec (p a : ℤ) :
    ∀ (fuel : ℕ) (u0 u1 u2 v0 v1 v2 : ℤ), EgcdInv p a u0 u1 u2 v0 v1 v2 →
      v2.natAbs + 1 ≤ fuel →
      ∃ w0 w1 w2 z0 z1 z2,
        egcdAux fuel u0 u1 u2 v0 v1 v2 = (w0, w1, w2) ∧
        EgcdInv p a w0 w1 w2 z0 z1 z2 ∧ z2 = 0 := by
  intro fuel
  induction fuel with
  | zero => intro u0 u1 u2 v0 v1 v2 _ hf; omega
  | succ n ih =>
    intro u0 u1 u2 v0 v1 v2 hinv hf
    by_cases hz : v2 = 0
    · exact ⟨u0, u1, u2, v0, v1, v2, by simp [egcdAux, hz], hinv, hz⟩
    · have hstep := egcd_step p a u0 u1 u2 v0 v1 v2 hinv hz
      have heq : egcdAux (n + 1) u0 u1 u2 v0 v1 v2 =
          egcdAux n v0 v1 v2 (u0 - u2.tdiv v2 * v0) (u1 - u2.tdiv v2 * v1)
            (u2 - u2.tdiv v2 * v2) := by
        simp [egcdAux, hz]
      rw [heq]
      apply ih _ _ _ _ _ _ hstep
      have := hstep.hv2
      have := hstep.huv
      have hv2pos : 0 < v2 := lt_of_le_of_ne hinv.hv2 (Ne.symm hz)
      have : (u2 - u2.tdiv v2 * v2).natAbs < v2.natAbs := by
        have h1 : 0 ≤ u2 - u2.tdiv v2 * v2 := hstep.hv2
        have h2 : u2 - u2.tdiv v2 * v2 < v2 := hstep.huv
        omega
      omega

theorem egcdInv_init (p a : ℤ) (ha0 : 0 ≤ a) (hap : a < p) :
    EgcdInv p a 1 0 p 0 1 a := by
  refine ⟨by ring, by ring, ha0, hap, by simp, by simp, by simp, fun d => Iff.rfl⟩

/-- `get_extended_euclidean a p` is the modular inverse of `a` mod `p`,
in `[0, p)`, whenever `0 ≤ a < p`, `2 ≤ p` and `p`, `a` are coprime. -/
theorem get_extended_euclidean_spec (p a : ℤ) (hp : 2 ≤ p) (ha0 : 0 ≤ a)
    (hap : a < p) (hco : IsCoprime p a) :
    0 ≤ get_extended_euclidean a p ∧ get_extended_euclidean a p < p ∧
      (get_extended_euclidean a p * a) % p = 1 := by
  obtain ⟨w0, w1, w2, z0, z1, z2, heq, hinv, hz2⟩ :=
    egcdAux_spec p a (a.natAbs + 1) 1 0 p 0 1 a (egcdInv_init p a ha0 hap)
      (le_refl _)
  have hw2pos : 0 < w2 := by have := hinv.huv; omega
  have hw2unit : IsUnit w2 := by
    have hd := (hinv.hdvd w2).mp ⟨dvd_refl w2, hz2 ▸ dvd_zero w2⟩
    exact hco.isUnit_of_dvd' hd.1 hd.2
  have hw2 : w2 = 1 := by
    rcases Int.isUnit_iff.mp hw2unit with h | h
    · exact h
    · omega
  have hmod : (w1 * a) % p = 1 % p := by
    have h1 : 1 - w1 * a = w0 * p := by
      have := hinv.hu
      rw [hw2] at this
      linarith
    have hdvd1 : p ∣ 1 - w1 * a := ⟨w0, by linarith⟩
    exact Int.modEq_iff_dvd.mpr hdvd1
  have hz1 : |z1| = p := by
    have := hinv.hlen
    rw [hw2, hz2] at this
    linarith
  have habs : |w1| ≤ p := hz1 ▸ hinv.habs
  have hone : (1 : ℤ) % p = 1 := Int.emod_eq_of_lt (by norm_num) (by omega)
  have hnd : ¬ p ∣ w1 := by
    intro hdvd
    have h1 : (w1 * a) % p = 0 := by
      rcases hdvd with ⟨t, ht⟩
      rw [ht, mul_assoc, mul_comm, Int.mul_emod_left]
    rw [h1, hone] at hmod
    exact one_ne_zero hmod.symm
  have hw1lt : -p < w1 ∧ w1 < p := by
    rcases abs_le.mp habs with ⟨h1, h2⟩
    constructor
    · rcases lt_or_eq_of_le h1 with h | h
      · omega
      · exact absurd (h ▸ Dvd.intro (-1) (by ring)) hnd
    · rcases lt_or_eq_of_le h2 with h | h
      · exact h
      · exact absurd (h ▸ Dvd.intro 1 (by ring)) hnd
  have hresult : get_extended_euclidean a p =
      if w1 < 0 then w1 + p else w1 := by
    unfold get_extended_euclidean
    rw [heq]
  rw [hresult]
  by_cases hneg : w1 < 0
  · rw [if_pos hneg]
    refine ⟨by omega, by omega, ?_⟩
    have hshift : ((w1 + p) * a) % p = (w1 * a) % p := by
      have h : (w1 + p) * a = w1 * a + a * p := by ring
      rw [h, Int.add_mul_emod_self]
    rw [hshift, hmod, hone]
  · rw [if_neg hneg]
    refine ⟨by omega, by omega, ?_⟩
    rw [hmod, hone]


theorem P_nonneg : (0 : ℤ) ≤ P := by norm_num [P]

theorem P_two : (2 : ℤ) ≤ P := by norm_num [P]

theorem P_ne : ¬ (P = 0) := by norm_num [P]

theorem coprime_P_G : IsCoprime P G :=
  ⟨-1, 11579208923731619542357098500868790785326998466564056403945758400791312963990,
    by norm_num [P, G]⟩

theorem coprime_P_H : IsCoprime P H :=
  ⟨-2, 38597363079105398474523661669562635951089994888546854679819194669304376546633,
    by norm_num [P, H]⟩

theorem isCoprime_emod (p x : ℤ) (h : IsCoprime p x) : IsCoprime p (x % p) := by
  have h2 := h.add_mul_left_right (-(x / p))
  have he : x + p * -(x / p) = x % p := by rw [Int.emod_def]; ring
  rwa [he] at h2

theorem modpow_eq_of_nonneg (b e m : ℤ) (he : 0 ≤ e) (hm : ¬ m = 0) :
    modpow b e m = some ((b ^ e.toNat).fmod m) := by
  simp [modpow, not_lt.mpr he, hm]

theorem verify_eval_ss (s c y1 y2 r1 r2 : ℤ) (hs : 0 ≤ s) (hc : 0 ≤ c) :
    verify s c y1 y2 r1 r2 =
      some (decide (r1 = mod_floor ((G ^ s.toNat).fmod P * (y1 ^ c.toNat).fmod P) P) &&
            decide (r2 = mod_floor ((H ^ s.toNat).fmod P * (y2 ^ c.toNat).fmod P) P)) := by
  unfold verify
  rw [if_neg (not_lt.mpr hs), if_neg (not_lt.mpr hc)]
  rw [modpow_eq_of_nonneg G s P hs P_ne, modpow_eq_of_nonneg H s P hs P_ne,
    modpow_eq_of_nonneg y1 c P hc P_ne, modpow_eq_of_nonneg y2 c P hc P_ne]
  rfl

theorem verify_eval_ns (s c y1 y2 r1 r2 : ℤ) (hs : s < 0) (hc : 0 ≤ c) :
    verify s c y1 y2 r1 r2 =
      some (decide (r1 = mod_floor
              (get_extended_euclidean ((G ^ (-s).toNat).fmod P) P *
                (y1 ^ c.toNat).fmod P) P) &&
            decide (r2 = mod_floor
              (get_extended_euclidean ((H ^ (-s).toNat).fmod P) P *
                (y2 ^ c.toNat).fmod P) P)) := by
  unfold verify
  rw [if_pos hs, if_neg (not_lt.mpr hc)]
  rw [modpow_eq_of_nonneg G (-s) P (by omega) P_ne,
    modpow_eq_of_nonneg H (-s) P (by omega) P_ne,
    modpow_eq_of_nonneg y1 c P hc P_ne, modpow_eq_of_nonneg y2 c P hc P_ne]
  rfl

theorem emod_self_modEq (a n : ℤ) : a % n ≡ a [ZMOD n] :=
  Int.emod_emod_of_dvd a dvd_rfl

theorem comp_nonneg (b : ℤ) (xn cn kn sn : ℕ) (hexp : sn + cn * xn = kn) :
    mod_floor ((b ^ sn).fmod P * (((b ^ xn).fmod P) ^ cn).fmod P) P =
      (b ^ kn).fmod P := by
  unfold mod_floor
  simp only [Int.fmod_eq_emod _ P_nonneg]
  have h2 : (b ^ xn % P) ^ cn % P ≡ b ^ (xn * cn) [ZMOD P] := by
    calc (b ^ xn % P) ^ cn % P ≡ (b ^ xn % P) ^ cn [ZMOD P] := emod_self_modEq _ _
      _ ≡ (b ^ xn) ^ cn [ZMOD P] := Int.ModEq.pow cn (emod_self_modEq _ _)
      _ = b ^ (xn * cn) := (pow_mul b xn cn).symm
  have hfinal : b ^ sn % P * ((b ^ xn % P) ^ cn % P) ≡ b ^ kn [ZMOD P] := by
    calc b ^ sn % P * ((b ^ xn % P) ^ cn % P)
        ≡ b ^ sn * b ^ (xn * cn) [ZMOD P] := (emod_self_modEq _ _).mul h2
      _ = b ^ (sn + xn * cn) := (pow_add b sn (xn * cn)).symm
      _ = b ^ kn := by have h : sn + xn * cn = kn := by rw [Nat.mul_comm]; exact hexp
                       rw [h]
  exact hfinal

theorem comp_neg (b : ℤ) (hb : IsCoprime P b) (xn cn kn msn : ℕ)
    (hexp : msn + kn = cn * xn) :
    mod_floor (get_extended_euclidean ((b ^ msn).fmod P) P *
        (((b ^ xn).fmod P) ^ cn).fmod P) P =
      (b ^ kn).fmod P := by
  unfold mod_floor
  simp only [Int.fmod_eq_emod _ P_nonneg]
  have hppos : (0 : ℤ) < P := by have := P_two; omega
  have hw0 : 0 ≤ b ^ msn % P := Int.emod_nonneg _ (by omega)
  have hwlt : b ^ msn % P < P := Int.emod_lt_of_pos _ hppos
  have hwco : IsCoprime P (b ^ msn % P) := isCoprime_emod P _ (hb.pow_right)
  obtain ⟨-, -, hinv⟩ :=
    get_extended_euclidean_spec P (b ^ msn % P) P_two hw0 hwlt hwco
  have hone : (1 : ℤ) % P = 1 := Int.emod_eq_of_lt (by norm_num) (by have := P_two; omega)
  have hinv2 : get_extended_euclidean (b ^ msn % P) P * (b ^ msn % P) ≡ 1 [ZMOD P] := by
    show _ % P = 1 % P
    rw [hinv, hone]
  have h2 : (b ^ xn % P) ^ cn % P ≡ b ^ msn * b ^ kn [ZMOD P] := by
    calc (b ^ xn % P) ^ cn % P ≡ (b ^ xn % P) ^ cn [ZMOD P] := emod_self_modEq _ _
      _ ≡ (b ^ xn) ^ cn [ZMOD P] := Int.ModEq.pow cn (emod_self_modEq _ _)
      _ = b ^ (msn + kn) := by rw [← pow_mul]
                               have h : xn * cn = msn + kn := by
                                 rw [Nat.mul_comm]; exact hexp.symm
                               rw [h]
      _ = b ^ msn * b ^ kn := pow_add b msn kn
  have hfinal : get_extended_euclidean (b ^ msn % P) P * ((b ^ xn % P) ^ cn % P) ≡
      b ^ kn [ZMOD P] := by
    calc get_extended_euclidean (b ^ msn % P) P * ((b ^ xn % P) ^ cn % P)
        ≡ get_extended_euclidean (b ^ msn % P) P * (b ^ msn * b ^ kn) [ZMOD P] :=
          (Int.ModEq.refl _).mul h2
      _ ≡ get_extended_euclidean (b ^ msn % P) P * ((b ^ msn % P) * b ^ kn) [ZMOD P] :=
          (Int.ModEq.refl _).mul ((emod_self_modEq (b ^ msn) P).symm.mul
            (Int.ModEq.refl (b ^ kn)))
      _ = get_extended_euclidean (b ^ msn % P) P * (b ^ msn % P) * b ^ kn := by ring
      _ ≡ 1 * b ^ kn [ZMOD P] := hinv2.mul (Int.ModEq.refl _)
      _ = b ^ kn := one_mul _
  exact hfinal



/-- The model matches `from_str_radix` at the malformed-input boundary:
embedded underscores are skipped (`"1_2"` is `12`), a leading underscore,
a letter, a bare or doubled sign are rejected, and `"-+5"` is `-5`
(`BigInt` strips the `'-'`, `BigUint` then strips one `'+'`). -/
theorem parse_bytes_boundary :
    parse_bytes "1_2" = some 12 ∧ parse_bytes "-1_2" = some (-12) ∧
    parse_bytes "12_" = some 12 ∧ parse_bytes "_12" = none ∧
    parse_bytes "-+5" = some (-5) ∧ parse_bytes "++5" = none ∧
    parse_bytes "+" = none ∧ parse_bytes "-" = none ∧
    parse_bytes "" = none ∧ parse_bytes "xyz" = none := by decide

theorem lookupA_insertA_self {α β : Type} [DecidableEq α]
    (l : List (α × β)) (k : α) (v : β) :
    lookupA (insertA l k v) k = some v := by
  induction l with
  | nil => simp [insertA, lookupA]
  | cons hd tl ih =>
    obtain ⟨k', v'⟩ := hd
    by_cases h : k' = k
    · simp [insertA, lookupA, h]
    · simp [insertA, lookupA, h, ih]

theorem register_ok_user_present (st st' : ServerState) (user y1s y2s : String)
    (h : register st user y1s y2s = (Outcome.okRegister, st')) :
    (lookupA st'.registered_users user).isSome := by
  unfold register at h
  split at h
  · rename_i h0
    rw [Prod.mk.injEq] at h
    rw [← h.2]
    exact h0
  · split at h
    · exact absurd (congrArg Prod.fst h) (by simp)
    · split at h
      · exact absurd (congrArg Prod.fst h) (by simp)
      · simp only [] at h
        split at h
        · exact absurd (congrArg Prod.fst h) (by simp)
        · rw [Prod.mk.injEq] at h
          rw [← h.2]
          simp [lookupA_insertA_self]

theorem verify_eq_uniform_of_c_nonneg (s c y1 y2 r1 r2 : ℤ) (hc : 0 ≤ c) :
    verify s c y1 y2 r1 r2 = some (verify_uniform s c y1 y2 r1 r2) := by
  rcases lt_or_ge s 0 with hs | hs
  · rw [verify_eval_ns s c y1 y2 r1 r2 hs hc]
    simp only [verify_uniform, modpow_signed, if_pos hs, if_neg (not_lt.mpr hc)]
  · rw [verify_eval_ss s c y1 y2 r1 r2 hs hc]
    simp only [verify_uniform, modpow_signed, if_neg (not_lt.mpr hs),
      if_neg (not_lt.mpr hc)]

theorem verify_none_of_c_neg (s c y1 y2 r1 r2 : ℤ) (hc : c < 0) :
    verify s c y1 y2 r1 r2 = none := by
  unfold verify
  rcases lt_or_ge s 0 with hs | hs
  · rw [if_pos hs, if_pos hc]
    rw [modpow_eq_of_nonneg G (-s) P (by omega) P_ne,
      modpow_eq_of_nonneg H (-s) P (by omega) P_ne]
    simp [modpow, hc]
  · rw [if_neg (not_lt.mpr hs), if_pos hc]
    rw [modpow_eq_of_nonneg G s P hs P_ne, modpow_eq_of_nonneg H s P hs P_ne]
    simp [modpow, hc]

theorem verify_eq_no_c_branch (s c y1 y2 r1 r2 : ℤ) (hc : 0 ≤ c) :
    verify s c y1 y2 r1 r2 = verify_without_neg_c_branch s c y1 y2 r1 r2 := by
  unfold verify verify_without_neg_c_branch
  rw [if_neg (not_lt.mpr hc)]

theorem register_invalid_argument (st : ServerState) (user y1s y2s : String)
    (hu : lookupA st.registered_users user = none)
    (hbad : parse_bytes y1s = none ∨ parse_bytes y2s = none) :
    register st user y1s y2s = (Outcome.invalidArgument, st) := by
  unfold register
  rw [hu]
  simp only [Option.isSome_none, Bool.false_eq_true, if_false]
  rcases h1 : parse_bytes y1s with _ | y1v
  · rfl
  · rcases h2 : parse_bytes y2s with _ | y2v
    · rfl
    · rcases hbad with h | h
      · rw [h1] at h; exact absurd h (by simp)
      · rw [h2] at h; exact absurd h (by simp)

theorem challenge_parse_panics (st : ServerState) (user r1s r2s : String)
    (aR cR : ℤ) (hbad : parse_bytes r1s = none ∨ parse_bytes r2s = none) :
    create_authentication_challenge st user r1s r2s aR cR =
      (Outcome.panicked, st) := by
  unfold create_authentication_challenge
  rcases h1 : parse_bytes r1s with _ | r1v
  · rfl
  · rcases h2 : parse_bytes r2s with _ | r2v
    · rfl
    · rcases hbad with h | h
      · rw [h1] at h; exact absurd h (by simp)
      · rw [h2] at h; exact absurd h (by simp)

theorem verify_auth_parse_panics (st : ServerState) (aS sS : String) (sr : ℤ)
    (hbad : parse_bytes aS = none ∨ parse_bytes sS = none) :
    verify_authentication st aS sS sr = (Outcome.panicked, st) := by
  unfold verify_authentication
  rcases h1 : parse_bytes aS with _ | av
  · rfl
  · rcases h2 : parse_bytes sS with _ | sv
    · rfl
    · rcases hbad with h | h
      · rw [h1] at h; exact absurd h (by simp)
      · rw [h2] at h; exact absurd h (by simp)

theorem verify_auth_missing_auth_id (st : ServerState) (aS sS : String)
    (sr auth_id s : ℤ)
    (ha : parse_bytes aS = some auth_id) (hs : parse_bytes sS = some s)
    (hu : lookupA st.auth_id_user_map auth_id = none) :
    verify_authentication st aS sS sr = (Outcome.panicked, st) := by
  unfold verify_authentication
  simp [ha, hs, hu]

theorem verify_auth_missing_attempt (st : ServerState) (aS sS : String)
    (sr auth_id s : ℤ) (user : String) (us : VerifierUserState)
    (ha : parse_bytes aS = some auth_id) (hs : parse_bytes sS = some s)
    (hu : lookupA st.auth_id_user_map auth_id = some user)
    (hus : lookupA st.registered_users user = some us)
    (hmiss : us.r1 = none ∨ us.r2 = none ∨ us.c = none) :
    verify_authentication st aS sS sr = (Outcome.panicked, st) := by
  unfold verify_authentication
  obtain ⟨uy1, uy2, or1, or2, oc⟩ := us
  rcases or1 with _ | v1
  · simp [ha, hs, hu, hus]
  · rcases or2 with _ | v2
    · simp [ha, hs, hu, hus]
    · rcases oc with _ | vc
      · simp [ha, hs, hu, hus]
      · exfalso
        simp at hmiss

theorem verify_authentication_snd (st : ServerState) (aS sS : String) (sr : ℤ) :
    (verify_authentication st aS sS sr).2 = st := by
  unfold verify_authentication
  repeat' split
  all_goals rfl

theorem verify_authentication_decision (st : ServerState) (aS sS : String)
    (sr sr' : ℤ) :
    decision (verify_authentication st aS sS sr').1 =
      decision (verify_authentication st aS sS sr).1 := by
  unfold verify_authentication
  repeat' split
  all_goals rfl

theorem challenge_stores_nonneg_c (st st' : ServerState) (user r1s r2s : String)
    (aR cR aid ch : ℤ)
    (h : create_authentication_challenge st user r1s r2s aR cR =
      (Outcome.okChallenge aid ch, st')) :
    0 ≤ ch ∧ ∃ us, lookupA st'.registered_users user = some us ∧
      us.c = some ch := by
  rcases h1 : parse_bytes r1s with _ | r1v
  · rw [challenge_parse_panics st user r1s r2s aR cR (Or.inl h1)] at h
    exact absurd (congrArg Prod.fst h) (by simp)
  · rcases h2 : parse_bytes r2s with _ | r2v
    · rw [challenge_parse_panics st user r1s r2s aR cR (Or.inr h2)] at h
      exact absurd (congrArg Prod.fst h) (by simp)
    · unfold create_authentication_challenge at h
      simp only [h1, h2] at h
      split at h
      · exact absurd (congrArg Prod.fst h) (by simp)
      · rename_i hreg
        rcases hl : lookupA st.registered_users user with _ | us0
        · rw [hl] at hreg
          simp at hreg
        · simp only [hl] at h
          rw [Prod.mk.injEq, Outcome.okChallenge.injEq] at h
          obtain ⟨⟨haid, hch⟩, hst⟩ := h
          constructor
          · rw [← hch]
            exact abs_nonneg cR
          · have hval : lookupA st'.registered_users user =
                some { us0 with r1 := some r1v, r2 := some r2v, c := some (request_challenge cR) } := by
              rw [← hst]
              exact lookupA_insertA_self _ _ _
            exact ⟨_, hval, by rw [← hch]⟩

/-- C1: Completeness of the protocol: for every `x ∈ [0, p)`,
`k ∈ [0, 2^128)` and `c ∈ [0, 2^128)`, with `(y1, y2) = gen_public x`,
`(r1, r2) = gen_random k` and `s = challenge_answer c k x = k - c*x`,
the verifier's `verify s c y1 y2 r1 r2` returns `true`. -/
theorem C1_protocol_completeness
    (x k c y1 y2 r1 r2 : ℤ)
    (hx0 : 0 ≤ x) (hxp : x < P)
    (hk0 : 0 ≤ k) (hk : k < 2 ^ 128)
    (hc0 : 0 ≤ c) (hc : c < 2 ^ 128)
    (hy : gen_public x = some (y1, y2))
    (hr : gen_random k = some (r1, r2)) :
    verify (challenge_answer c k x) c y1 y2 r1 r2 = some true := by
  unfold gen_public at hy
  unfold gen_random at hr
  rw [modpow_eq_of_nonneg G x P hx0 P_ne, modpow_eq_of_nonneg H x P hx0 P_ne] at hy
  rw [modpow_eq_of_nonneg G k P hk0 P_ne, modpow_eq_of_nonneg H k P hk0 P_ne] at hr
  simp only [Option.bind, Option.map, Option.some.injEq, Prod.mk.injEq] at hy hr
  obtain ⟨hy1, hy2⟩ := hy
  obtain ⟨hr1, hr2⟩ := hr
  subst hy1 hy2 hr1 hr2
  have hxtn : ((x.toNat : ℕ) : ℤ) = x := Int.toNat_of_nonneg hx0
  have hktn : ((k.toNat : ℕ) : ℤ) = k := Int.toNat_of_nonneg hk0
  have hctn : ((c.toNat : ℕ) : ℤ) = c := Int.toNat_of_nonneg hc0
  rcases le_or_lt 0 (challenge_answer c k x) with hs | hs
  · rw [verify_eval_ss _ _ _ _ _ _ hs hc0]
    have hexp : (challenge_answer c k x).toNat + c.toNat * x.toNat = k.toNat := by
      have h1 : (((challenge_answer c k x).toNat + c.toNat * x.toNat : ℕ) : ℤ) =
          ((k.toNat : ℕ) : ℤ) := by
        push_cast [Int.toNat_of_nonneg hs, hxtn, hktn, hctn]
        unfold challenge_answer
        ring
      exact_mod_cast h1
    rw [comp_nonneg G x.toNat c.toNat k.toNat _ hexp,
      comp_nonneg H x.toNat c.toNat k.toNat _ hexp]
    simp
  · rw [verify_eval_ns _ _ _ _ _ _ hs hc0]
    have hexp : (-(challenge_answer c k x)).toNat + k.toNat = c.toNat * x.toNat := by
      have h1 : (((-(challenge_answer c k x)).toNat + k.toNat : ℕ) : ℤ) =
          ((c.toNat * x.toNat : ℕ) : ℤ) := by
        push_cast [Int.toNat_of_nonneg (by omega : (0:ℤ) ≤ -(challenge_answer c k x)),
          hxtn, hktn, hctn]
        unfold challenge_answer
        ring
      exact_mod_cast h1
    rw [comp_neg G coprime_P_G x.toNat c.toNat k.toNat _ hexp,
      comp_neg H coprime_P_H x.toNat c.toNat k.toNat _ hexp]
    simp

/-- Witness for C1 at `x = 3`, `k = 5`, `c = 2` (so `s = -1 < 0`). -/
theorem C1_protocol_completeness_witness :
    verify (challenge_answer 2 5 3) 2 125 27 3125 243 = some true :=
  C1_protocol_completeness 3 5 2 125 27 3125 243 (by decide) (by decide)
    (by decide) (by decide) (by decide) (by decide) (by decide) (by decide)

/-- C2 (counterexample): the `c < 0` branch of `verify` does not compute by
the spec's uniform rule: at `s = 0`, `c = -1`, `y1 = 2`, `y2 = 1` the code
passes the negative `c` straight to `modpow`, which panics, while the
uniform rule yields a value. -/
theorem C2_uniform_negative_exponent_counterexample :
    verify 0 (-1) 2 1 0 0 ≠ some (verify_uniform 0 (-1) 2 1 0 0) := by decide

/-- C2 (amended): the negative-exponent rule
`modinv(modpow(base, -e, p), p)` is applied for negative `s` (so for
`c ≥ 0` the code verifier agrees with the spec's uniform-rule verifier),
but the `c < 0` branch passes `c` itself — not `-c` — to `modpow`, which
rejects negative exponents, so that branch panics instead of applying the
rule. -/
theorem C2_uniform_negative_exponent_amended :
    (∀ s c y1 y2 r1 r2 : ℤ, 0 ≤ c →
      verify s c y1 y2 r1 r2 = some (verify_uniform s c y1 y2 r1 r2)) ∧
    (∀ s c y1 y2 r1 r2 : ℤ, c < 0 → verify s c y1 y2 r1 r2 = none) :=
  ⟨fun s c y1 y2 r1 r2 hc => verify_eq_uniform_of_c_nonneg s c y1 y2 r1 r2 hc,
   fun s c y1 y2 r1 r2 hc => verify_none_of_c_neg s c y1 y2 r1 r2 hc⟩

/-- Witness for the amended C2 at concrete inputs. -/
theorem C2_uniform_negative_exponent_amended_witness :
    verify (-1) 2 125 27 0 0 = some (verify_uniform (-1) 2 125 27 0 0) ∧
    verify 1 (-2) 3 4 5 6 = none :=
  ⟨C2_uniform_negative_exponent_amended.1 (-1) 2 125 27 0 0 (by decide),
   C2_uniform_negative_exponent_amended.2 1 (-2) 3 4 5 6 (by decide)⟩

/-- C3 (counterexample): a `CreateAuthenticationChallenge` request whose
`r1` is not a decimal string makes the handler panic (`unwrap` on a failed
parse), not return `InvalidArgument`. -/
theorem C3_strict_parsing_counterexample :
    (create_authentication_challenge ⟨[], [], false⟩ "alice" "xyz" "1" 0 0).1 =
        Outcome.panicked ∧
    (create_authentication_challenge ⟨[], [], false⟩ "alice" "xyz" "1" 0 0).1 ≠
        Outcome.invalidArgument := by decide

/-- C3 (amended): only `Register` answers `InvalidArgument` on a
non-decimal numeric field (`y1`/`y2`); `CreateAuthenticationChallenge`
(`r1`/`r2`) and `VerifyAuthentication` (`auth_id`/`s`) `unwrap()` the parse
result and panic instead. -/
theorem C3_strict_parsing_amended :
    (∀ (st : ServerState) (user y1s y2s : String),
      lookupA st.registered_users user = none →
      parse_bytes y1s = none ∨ parse_bytes y2s = none →
      register st user y1s y2s = (Outcome.invalidArgument, st)) ∧
    (∀ (st : ServerState) (user r1s r2s : String) (aR cR : ℤ),
      parse_bytes r1s = none ∨ parse_bytes r2s = none →
      create_authentication_challenge st user r1s r2s aR cR =
        (Outcome.panicked, st)) ∧
    (∀ (st : ServerState) (aS sS : String) (sr : ℤ),
      parse_bytes aS = none ∨ parse_bytes sS = none →
      verify_authentication st aS sS sr = (Outcome.panicked, st)) :=
  ⟨fun st user y1s y2s hu hbad => register_invalid_argument st user y1s y2s hu hbad,
   fun st user r1s r2s aR cR hbad => challenge_parse_panics st user r1s r2s aR cR hbad,
   fun st aS sS sr hbad => verify_auth_parse_panics st aS sS sr hbad⟩

/-- Witness for the amended C3 at concrete malformed requests. -/
theorem C3_strict_parsing_amended_witness :
    register ⟨[], [], false⟩ "alice" "xyz" "2" =
      (Outcome.invalidArgument, (⟨[], [], false⟩ : ServerState)) ∧
    create_authentication_challenge ⟨[], [], false⟩ "alice" "xyz" "1" 0 0 =
      (Outcome.panicked, (⟨[], [], false⟩ : ServerState)) ∧
    verify_authentication ⟨[], [], false⟩ "abc" "1" 0 =
      (Outcome.panicked, (⟨[], [], false⟩ : ServerState)) :=
  ⟨C3_strict_parsing_amended.1 ⟨[], [], false⟩ "alice" "xyz" "2" (by decide)
      (Or.inl (by decide)),
   C3_strict_parsing_amended.2.1 ⟨[], [], false⟩ "alice" "xyz" "1" 0 0
      (Or.inl (by decide)),
   C3_strict_parsing_amended.2.2 ⟨[], [], false⟩ "abc" "1" 0
      (Or.inl (by decide))⟩

/-- C4 (counterexample): a `VerifyAuthentication` whose `auth_id` is absent
from `AUTH_ID_USER_MAP` panics (`unwrap` on `None`) instead of returning
`Unauthenticated`. -/
theorem C4_missing_state_counterexample :
    (verify_authentication
        ⟨[("alice", ⟨1, 1, none, none, none⟩)], [], true⟩ "5" "1" 0).1 =
      Outcome.panicked ∧
    (verify_authentication
        ⟨[("alice", ⟨1, 1, none, none, none⟩)], [], true⟩ "5" "1" 0).1 ≠
      Outcome.unauthenticated := by decide

/-- C4 (amended): `verify_authentication` with an `auth_id` absent from
`AUTH_ID_USER_MAP`, or with the user's `r1`/`r2`/`c` unset because no
challenge preceded, panics (and in particular returns no session). -/
theorem C4_missing_state_amended :
    (∀ (st : ServerState) (aS sS : String) (sr auth_id s : ℤ),
      parse_bytes aS = some auth_id → parse_bytes sS = some s →
      lookupA st.auth_id_user_map auth_id = none →
      verify_authentication st aS sS sr = (Outcome.panicked, st)) ∧
    (∀ (st : ServerState) (aS sS : String) (sr auth_id s : ℤ) (user : String)
        (us : VerifierUserState),
      parse_bytes aS = some auth_id → parse_bytes sS = some s →
      lookupA st.auth_id_user_map auth_id = some user →
      lookupA st.registered_users user = some us →
      us.r1 = none ∨ us.r2 = none ∨ us.c = none →
      verify_authentication st aS sS sr = (Outcome.panicked, st)) :=
  ⟨fun st aS sS sr auth_id s ha hs hu =>
      verify_auth_missing_auth_id st aS sS sr auth_id s ha hs hu,
   fun st aS sS sr auth_id s user us ha hs hu hus hmiss =>
      verify_auth_missing_attempt st aS sS sr auth_id s user us ha hs hu hus hmiss⟩

/-- Witness for the amended C4: an unknown `auth_id`, and a known
`auth_id` whose user has no attempt state. -/
theorem C4_missing_state_amended_witness :
    verify_authentication ⟨[("alice", ⟨1, 1, none, none, none⟩)], [], true⟩
        "5" "1" 0 =
      (Outcome.panicked, ⟨[("alice", ⟨1, 1, none, none, none⟩)], [], true⟩) ∧
    verify_authentication
        ⟨[("alice", ⟨1, 1, none, none, none⟩)], [(7, "alice")], true⟩ "7" "1" 0 =
      (Outcome.panicked,
        ⟨[("alice", ⟨1, 1, none, none, none⟩)], [(7, "alice")], true⟩) :=
  ⟨C4_missing_state_amended.1 ⟨[("alice", ⟨1, 1, none, none, none⟩)], [], true⟩
      "5" "1" 0 5 1 (by decide) (by decide) (by decide),
   C4_missing_state_amended.2
      ⟨[("alice", ⟨1, 1, none, none, none⟩)], [(7, "alice")], true⟩ "7" "1" 0 7 1
      "alice" ⟨1, 1, none, none, none⟩ (by decide) (by decide) (by decide)
      (by decide) (Or.inl (by decide))⟩

/-- C5: registering a first user stores its record and succeeds, but a
second `Register` for a distinct user panics: the handler re-runs
`zkp_verifier::init()`, whose `OnceCell::set(..).unwrap()` fails because
the group parameters are already set (the new record is nonetheless
inserted before the panic). -/
theorem C5_second_registration_panics :
    register ⟨[], [], false⟩ "alice" "1" "2" =
      (Outcome.okRegister, ⟨[("alice", ⟨1, 2, none, none, none⟩)], [], true⟩) ∧
    register ⟨[("alice", ⟨1, 2, none, none, none⟩)], [], true⟩ "bob" "3" "4" =
      (Outcome.panicked,
        ⟨[("alice", ⟨1, 2, none, none, none⟩),
          ("bob", ⟨3, 4, none, none, none⟩)], [], true⟩) := by decide

/-- C6: `get_extended_euclidean a p` is the unique `b ∈ [0, p)` with
`b * a ≡ 1 (mod p)`, for every `a ∈ [1, p)` and prime `p`. -/
theorem C6_modular_inverse_correct (p a : ℤ) (hp : Prime p)
    (ha1 : 1 ≤ a) (hap : a < p) :
    0 ≤ get_extended_euclidean a p ∧ get_extended_euclidean a p < p ∧
    (get_extended_euclidean a p * a) % p = 1 ∧
    ∀ b : ℤ, 0 ≤ b → b < p → (b * a) % p = 1 →
      b = get_extended_euclidean a p := by
  have hp2 : 2 ≤ p := by omega
  have hco : IsCoprime p a := by
    rw [hp.coprime_iff_not_dvd]
    intro hdvd
    have := Int.le_of_dvd (by omega) hdvd
    omega
  obtain ⟨h0, h1, h2⟩ := get_extended_euclidean_spec p a hp2 (by omega) hap hco
  refine ⟨h0, h1, h2, ?_⟩
  intro b hb0 hbp hb1
  have hdiff : ((b - get_extended_euclidean a p) * a) % p = 0 := by
    have hexpand : (b - get_extended_euclidean a p) * a =
        b * a - get_extended_euclidean a p * a := by ring
    rw [hexpand, Int.sub_emod, hb1, h2]
    simp
  have hdvd : p ∣ (b - get_extended_euclidean a p) * a :=
    Int.dvd_of_emod_eq_zero hdiff
  have hba : p ∣ b - get_extended_euclidean a p := hco.dvd_of_dvd_mul_right hdvd
  rcases hba with ⟨t, ht⟩
  have ht0 : t = 0 := by
    rcases lt_trichotomy t 0 with hlt | hzero | hgt
    · nlinarith
    · exact hzero
    · nlinarith
  rw [ht0, mul_zero] at ht
  omega

/-- Witness for C6 at `p = 7`, `a = 3` (inverse `5`). -/
theorem C6_modular_inverse_correct_witness :
    get_extended_euclidean 3 7 = 5 ∧
    (0 ≤ get_extended_euclidean 3 7 ∧ get_extended_euclidean 3 7 < 7 ∧
      (get_extended_euclidean 3 7 * 3) % 7 = 1) := by
  constructor
  · decide
  · have h := C6_modular_inverse_correct 7 3 (by norm_num) (by norm_num)
      (by norm_num)
    exact ⟨h.1, h.2.1, h.2.2.1⟩

/-- C7: registration is idempotent: after a successful `Register`, any
further `Register` for the same user succeeds and leaves the server state
(in particular the stored `UserRecord`) unchanged, whatever the new
`y1`/`y2` strings are. -/
theorem C7_register_idempotent (st st1 : ServerState)
    (user y1s y2s y1sB y2sB : String)
    (h : register st user y1s y2s = (Outcome.okRegister, st1)) :
    register st1 user y1sB y2sB = (Outcome.okRegister, st1) := by
  unfold register
  rw [if_pos (register_ok_user_present st st1 user y1s y2s h)]

/-- Witness for C7: re-registering `bob` with different, even equal-length
values changes nothing. -/
theorem C7_register_idempotent_witness :
    register (⟨[("bob", ⟨5, 9, none, none, none⟩)], [], true⟩ : ServerState)
        "bob" "17" "23" =
      (Outcome.okRegister, ⟨[("bob", ⟨5, 9, none, none, none⟩)], [], true⟩) :=
  C7_register_idempotent ⟨[], [], false⟩
    ⟨[("bob", ⟨5, 9, none, none, none⟩)], [], true⟩ "bob" "5" "9" "17" "23"
    (by decide)

/-- C8: `verify_authentication` never mutates the server state (both maps
survive the call), so replaying the same `(auth_id, s)` reaches the same
accept/reject decision. -/
theorem C8_verify_is_replayable (st : ServerState) (aS sS : String)
    (sr srB : ℤ) :
    (verify_authentication st aS sS sr).2 = st ∧
    decision (verify_authentication ((verify_authentication st aS sS sr).2)
        aS sS srB).1 =
      decision (verify_authentication st aS sS sr).1 := by
  refine ⟨verify_authentication_snd st aS sS sr, ?_⟩
  rw [verify_authentication_snd st aS sS sr]
  exact verify_authentication_decision st aS sS sr srB

/-- C9: `gen_random_with_n_bits` always returns a value in `[0, 2^N)`;
hence the stored challenge `c` is non-negative and the `c < 0` branch of
`verify` is dead for every reachable challenge. -/
theorem C9_challenge_nonneg :
    (∀ (N : ℕ) (raw : ℤ), 0 ≤ gen_random_with_n_bits N raw) ∧
    (∀ (N : ℕ) (raw : ℤ), raw.natAbs < 2 ^ N →
      gen_random_with_n_bits N raw < (2 : ℤ) ^ N) ∧
    (∀ (st stB : ServerState) (user r1s r2s : String) (aR cR aid ch : ℤ),
      create_authentication_challenge st user r1s r2s aR cR =
        (Outcome.okChallenge aid ch, stB) →
      0 ≤ ch ∧ ∃ us, lookupA stB.registered_users user = some us ∧
        us.c = some ch) ∧
    (∀ s c y1 y2 r1 r2 : ℤ, 0 ≤ c →
      verify s c y1 y2 r1 r2 = verify_without_neg_c_branch s c y1 y2 r1 r2) := by
  refine ⟨?_, ?_, ?_, ?_⟩
  · intro N raw
    exact abs_nonneg raw
  · intro N raw h
    unfold gen_random_with_n_bits
    rw [Int.abs_eq_natAbs]
    exact_mod_cast h
  · exact fun st stB user r1s r2s aR cR aid ch h =>
      challenge_stores_nonneg_c st stB user r1s r2s aR cR aid ch h
  · exact fun s c y1 y2 r1 r2 hc => verify_eq_no_c_branch s c y1 y2 r1 r2 hc

/-- Witness for C9 at a negative raw sample and a concrete challenge. -/
theorem C9_challenge_nonneg_witness :
    0 ≤ gen_random_with_n_bits 128 (-5) ∧
    gen_random_with_n_bits 128 (-5) < (2 : ℤ) ^ 128 ∧
    (0 ≤ (5 : ℤ) ∧ ∃ us,
      lookupA (⟨[("alice", ⟨1, 1, some 10, some 20, some 5⟩)],
        [(7, "alice")], true⟩ : ServerState).registered_users "alice" =
          some us ∧ us.c = some 5) ∧
    verify 1 2 3 4 5 6 = verify_without_neg_c_branch 1 2 3 4 5 6 :=
  ⟨C9_challenge_nonneg.1 128 (-5),
   C9_challenge_nonneg.2.1 128 (-5) (by decide),
   C9_challenge_nonneg.2.2.1 ⟨[("alice", ⟨1, 1, none, none, none⟩)], [], true⟩
     ⟨[("alice", ⟨1, 1, some 10, some 20, some 5⟩)], [(7, "alice")], true⟩
     "alice" "10" "20" 7 (-5) 7 5 (by decide),
   C9_challenge_nonneg.2.2.2 1 2 3 4 5 6 (by decide)⟩

/-- C10: the client's `handle_login` answers HTTP 401 (Unauthorized) for a
successful authentication and HTTP 200 (OK) for a server-side rejection —
the conventional meanings swapped. -/
theorem C10_login_status_codes_swapped (user session_id status : String) :
    (handle_login user
        (ZkpClientAuthenticationStatus.authenticated session_id)).2 = 401 ∧
    (handle_login user
        (ZkpClientAuthenticationStatus.notAuthenticated status)).2 = 200 :=
  ⟨rfl, rfl⟩

end Zkp
